import Mathlib

/-!
Verification of the identity-merge and temporal-pairing engine of
`AtxSacMakeTables.cpp` (AtxSacToolkit).

The C++ source is shallowly embedded below:

* `Datetime` models the Rcpp `Datetime` wrapper: an absolute time value
  (seconds, here an `Int`) plus the calendar accessors `getYear`,
  `getMonth`, `getDay` used by `CompareByDay`.  Ordering comparisons in
  the source (`<`, `<=`) are on the absolute time value.
* `Intake`, `Outcome`, `Animal` mirror the classes of the same names,
  with the `NaString` sentinel `"NA"` for missing string fields.
* `Animal.UpdateIfNewer` mirrors `Animal::UpdateIfNewer`.
* `MergeAnimalLoop` is the while-loop of `DataFrameBuilder::MergeAnimal`
  rendered as a recursive function on the loop state
  (`numIntakesRemaining`, `numOutcomesRemaining`, `nextIntake`,
  `nextOutcome`); `MergeAnimal` adds the post-loop leftover-outcome
  handling.  Emission into the impound table is modelled by the
  `ImpoundRecord` inductive: the source's `EmitSolitaryIntake` /
  `EmitSolitaryOutcome` construct a default (all-NA) partner event, so a
  solitary record is exactly a record with one side absent; console
  warnings (`DataFrameBuilder::Warning`) are collected as a list of the
  message strings.
-/

namespace AtxSac

/-- The sentinel string for a missing field (`static const string NaString = "NA"`). -/
def NaString : String := "NA"

/-- Sentinel for a missing integer field (`NA_INTEGER`, i.e. `INT_MIN`). -/
def NaInt : Int := -2147483648

/-- A timestamp: absolute time plus the calendar fields that the Rcpp
`Datetime` accessors `getYear`/`getMonth`/`getDay` expose.  (In Rcpp the
calendar fields are derived from the absolute time; modelling them as
separate fields is more general and is sound for every property proved
here.)  `NA_REAL` (the date of a default-constructed event) is modelled by
`Datetime.na`; it is only ever used to build placeholder events that are
never compared. -/
structure Datetime where
  time : Int
  year : Int
  month : Int
  day : Int
deriving DecidableEq

/-- The timestamp of a default-constructed (all-NA) event. -/
def Datetime.na : Datetime := ⟨NaInt, NaInt, NaInt, NaInt⟩

/-- Result of the day-granularity comparison (`enum DayRelation`). -/
inductive DayRelation where
  | EarlierDay
  | SameDay
  | LaterDay
deriving DecidableEq

/-- The function `CompareByDay`: whether the first date-time is on an earlier day, the
same day, or a later day than the second, comparing year, then month,
then day. -/
def CompareByDay (dateTime1 dateTime2 : Datetime) : DayRelation :=
  if dateTime1.year < dateTime2.year then .EarlierDay
  else if dateTime2.year < dateTime1.year then .LaterDay
  else if dateTime1.month < dateTime2.month then .EarlierDay
  else if dateTime2.month < dateTime1.month then .LaterDay
  else if dateTime1.day < dateTime2.day then .EarlierDay
  else if dateTime2.day < dateTime1.day then .LaterDay
  else .SameDay

/-- An intake event (`class Intake`). -/
structure Intake where
  intakeDate : Datetime
  intakeType : String
  intakeSubType : String
  intakeCondition : String
  intakeLocation : String
  intakeAgeCount : Int
  intakeAgeUnits : String
  intakeAge : Int
  intakeSpayNeuter : String
  kennel : String
deriving DecidableEq

/-- The null constructor `Intake::Intake()`, all fields NA. -/
def Intake.null : Intake :=
  ⟨Datetime.na, NaString, NaString, NaString, NaString, NaInt, NaString,
   NaInt, NaString, NaString⟩

/-- An outcome event (`class Outcome`). -/
structure Outcome where
  outcomeDate : Datetime
  outcomeType : String
  outcomeSubType : String
  outcomeCondition : String
  outcomeSpayNeuter : String
deriving DecidableEq

/-- The null constructor `Outcome::Outcome()`, all fields NA. -/
def Outcome.null : Outcome :=
  ⟨Datetime.na, NaString, NaString, NaString, NaString⟩

/-- The comparator `IntakeTimeLessThan`: orders intakes by their absolute intake time. -/
def IntakeTimeLessThan (intakeA intakeB : Intake) : Bool :=
  intakeA.intakeDate.time < intakeB.intakeDate.time

/-- The comparator `OutcomeTimeCompare`: orders outcomes by their absolute outcome time. -/
def OutcomeTimeCompare (outcomeA outcomeB : Outcome) : Bool :=
  outcomeA.outcomeDate.time < outcomeB.outcomeDate.time

/-- A canonical per-identity record (`class Animal`). -/
structure Animal where
  animalId : String
  kind : String
  gender : String
  name : String
  color1 : String
  color2 : String
  breed1 : String
  breed2 : String
  dateTime : Datetime
  intakeList : List Intake
  outcomeList : List Outcome
deriving DecidableEq

/-- The constructor `Animal::Animal(animalId, dateTime)`: all descriptive attributes NA,
empty event lists. -/
def Animal.create (animalId : String) (dateTime : Datetime) : Animal :=
  ⟨animalId, NaString, NaString, NaString, NaString, NaString, NaString,
   NaString, dateTime, [], []⟩

/-- The merge step `Animal::UpdateIfNewer`: if the candidate's timestamp is not strictly
newer, do nothing; otherwise overwrite name, gender, color1, color2,
breed1 and breed2 by each candidate field that is not NA, and advance the
timestamp to the candidate's.  (The source does not touch `mKind`.) -/
def Animal.UpdateIfNewer (self animal : Animal) : Animal :=
  if animal.dateTime.time ≤ self.dateTime.time then self
  else
    { self with
      name := if animal.name ≠ NaString then animal.name else self.name
      gender := if animal.gender ≠ NaString then animal.gender else self.gender
      color1 := if animal.color1 ≠ NaString then animal.color1 else self.color1
      color2 := if animal.color2 ≠ NaString then animal.color2 else self.color2
      breed1 := if animal.breed1 ≠ NaString then animal.breed1 else self.breed1
      breed2 := if animal.breed2 ≠ NaString then animal.breed2 else self.breed2
      dateTime := animal.dateTime }

/-- A sequence of merges: each candidate in turn is applied with
`UpdateIfNewer` to the canonical record (as `DataFrameBuilder::AddAnimal`
does for rows sharing one identity key). -/
def Animal.updateAll (self : Animal) (candidates : List Animal) : Animal :=
  candidates.foldl Animal.UpdateIfNewer self

/-- The sub-list of candidates that `UpdateIfNewer` accepts (candidate
timestamp strictly greater than the canonical timestamp at the moment it
is examined). -/
def Animal.acceptedCandidates (self : Animal) : List Animal → List Animal
  | [] => []
  | c :: rest =>
    if self.dateTime.time < c.dateTime.time then
      c :: (self.UpdateIfNewer c).acceptedCandidates rest
    else
      self.acceptedCandidates rest

/-- One row of the impound table, as appended by `EmitIntakeOutcome`
(`paired`), `EmitSolitaryIntake` (`intakeOnly`, the outcome side being a
default-constructed all-NA `Outcome`), and `EmitSolitaryOutcome`
(`outcomeOnly`, the intake side being a default-constructed all-NA
`Intake`). -/
inductive ImpoundRecord where
  | paired (intake : Intake) (outcome : Outcome)
  | intakeOnly (intake : Intake)
  | outcomeOnly (outcome : Outcome)
deriving DecidableEq

/-- Vector access `Animal::GetIntakeAt` (access; totalised with the null intake,
which no reachable access ever produces). -/
def getIntakeAt (l : List Intake) (i : Nat) : Intake := l.getD i Intake.null

/-- Vector access `Animal::GetOutcomeAt` (access; totalised with the null
outcome, which no reachable access ever produces). -/
def getOutcomeAt (l : List Outcome) (i : Nat) : Outcome := l.getD i Outcome.null

/-- The while-loop of `DataFrameBuilder::MergeAnimal`, as a function of
the loop state: `nIR` = `numIntakesRemaining`, `nOR` =
`numOutcomesRemaining`, `ni` = `nextIntake`, `no` = `nextOutcome`.
Returns the impound records emitted (in order), the warnings issued (in
order), and the values of `numOutcomesRemaining` and `nextOutcome` when
the loop exits. -/
def MergeAnimalLoop (I : List Intake) (O : List Outcome) :
    Nat → Nat → Nat → Nat → List ImpoundRecord × List String × Nat × Nat
  | nIR, nOR, ni, no =>
    if h : 0 < nIR then
      let intake := getIntakeAt I ni
      if nOR = 0 then
        if 1 < nIR then
          -- multiple intakes left, no outcomes: warn, emit the most
          -- recent intake, discard the rest, consume all
          let r := MergeAnimalLoop I O 0 nOR I.length no
          (.intakeOnly (getIntakeAt I (I.length - 1)) :: r.1,
           "Intake not matched with outcome." :: r.2.1, r.2.2)
        else
          -- a single unpaired intake left: emit it
          let r := MergeAnimalLoop I O (nIR - 1) nOR (ni + 1) no
          (.intakeOnly intake :: r.1, r.2.1, r.2.2)
      else
        let outcome := getOutcomeAt O no
        if CompareByDay outcome.outcomeDate intake.intakeDate = .EarlierDay then
          if nIR = I.length then
            -- outcome earlier than the first intake: solitary outcome
            let r := MergeAnimalLoop I O nIR (nOR - 1) ni (no + 1)
            (.outcomeOnly outcome :: r.1, r.2.1, r.2.2)
          else
            -- out-of-order outcome mid-stream: warn and discard
            let r := MergeAnimalLoop I O nIR (nOR - 1) ni (no + 1)
            (r.1, "Outcome out of order. Discarded." :: r.2.1, r.2.2)
        else
          -- same or later day: pair them
          let r := MergeAnimalLoop I O (nIR - 1) (nOR - 1) (ni + 1) (no + 1)
          (.paired intake outcome :: r.1, r.2.1, r.2.2)
    else ([], [], nOR, no)
termination_by nIR nOR ni no => nIR + nOR
decreasing_by all_goals omega

/-- The full `DataFrameBuilder::MergeAnimal` on an animal's (already sorted) intake
and outcome lists: run the pairing loop, then handle leftover outcomes.
Returns the emitted impound records and the warnings. -/
def MergeAnimal (I : List Intake) (O : List Outcome) :
    List ImpoundRecord × List String :=
  let r := MergeAnimalLoop I O I.length O.length 0 0
  if 0 < r.2.2.1 then
    if I.length = 0 then
      (r.1 ++ [.outcomeOnly (getOutcomeAt O r.2.2.2)], r.2.1)
    else
      (r.1, r.2.1 ++ ["Extra outcomes remaining at end."])
  else (r.1, r.2.1)

/-- The number of iterations the pairing loop performs from a given state
(same branch structure as `MergeAnimalLoop`). -/
def MergeAnimalSteps (I : List Intake) (O : List Outcome) :
    Nat → Nat → Nat → Nat → Nat
  | nIR, nOR, ni, no =>
    if h : 0 < nIR then
      let intake := getIntakeAt I ni
      if nOR = 0 then
        if 1 < nIR then
          1 + MergeAnimalSteps I O 0 nOR I.length no
        else
          1 + MergeAnimalSteps I O (nIR - 1) nOR (ni + 1) no
      else
        let outcome := getOutcomeAt O no
        if CompareByDay outcome.outcomeDate intake.intakeDate = .EarlierDay then
          1 + MergeAnimalSteps I O nIR (nOR - 1) ni (no + 1)
        else
          1 + MergeAnimalSteps I O (nIR - 1) (nOR - 1) (ni + 1) (no + 1)
    else 0
termination_by nIR nOR ni no => nIR + nOR
decreasing_by all_goals omega

/-- A concrete intake event used to instantiate the general theorems. -/
def mkIntake (t y m d : Int) : Intake := { Intake.null with intakeDate := ⟨t, y, m, d⟩ }

/-- A concrete outcome event used to instantiate the general theorems. -/
def mkOutcome (t y m d : Int) : Outcome := { Outcome.null with outcomeDate := ⟨t, y, m, d⟩ }

/-- A concrete canonical animal record (known kind, name and primary
color) used to instantiate the general theorems. -/
def rex : Animal :=
  { Animal.create "A1" ⟨1, 2024, 1, 1⟩ with kind := "Dog", name := "Rex", color1 := "Black" }

/-- A concrete, strictly newer candidate record for the same identity
(known kind and primary color, name unknown) used to instantiate the
general theorems. -/
def rexUpdate : Animal :=
  { Animal.create "A1" ⟨2, 2024, 1, 2⟩ with kind := "Cat", color1 := "Brown" }

/-- The seven descriptive attributes of an `Animal`, as accessors. -/
def descriptiveAttrs : List (Animal → String) :=
  [Animal.kind, Animal.gender, Animal.name, Animal.color1, Animal.color2,
   Animal.breed1, Animal.breed2]

end AtxSac

namespace AtxSac

theorem updateAll_nil (e : Animal) : e.updateAll [] = e := rfl

theorem updateAll_cons (e c : Animal) (cs : List Animal) :
    e.updateAll (c :: cs) = (e.UpdateIfNewer c).updateAll cs := rfl

/-- The guard of `UpdateIfNewer`: a candidate that is not strictly newer
leaves the record untouched. -/
theorem UpdateIfNewer_of_stale (e c : Animal)
    (h : c.dateTime.time ≤ e.dateTime.time) : e.UpdateIfNewer c = e := by
  simp [Animal.UpdateIfNewer, h]

/-- An accepted merge advances the timestamp to the candidate's. -/
theorem UpdateIfNewer_dateTime_of_newer (e c : Animal)
    (h : e.dateTime.time < c.dateTime.time) :
    (e.UpdateIfNewer c).dateTime = c.dateTime := by
  rw [Animal.UpdateIfNewer, if_neg (by omega)]

/-- One merge never decreases the timestamp. -/
theorem UpdateIfNewer_dateTime_mono (e c : Animal) :
    e.dateTime.time ≤ (e.UpdateIfNewer c).dateTime.time := by
  rw [Animal.UpdateIfNewer]
  split
  next h => exact le_refl _
  next h => exact le_of_not_le h

/-- One merge either leaves a descriptive attribute unchanged or replaces
it by the candidate's value, and in the latter case the candidate's value
is known. -/
theorem UpdateIfNewer_attr_step (f : Animal → String) (hf : f ∈ descriptiveAttrs)
    (e c : Animal) :
    f (e.UpdateIfNewer c) = f e ∨ (f (e.UpdateIfNewer c) = f c ∧ f c ≠ NaString) := by
  have hcases : f = Animal.kind ∨ f = Animal.gender ∨ f = Animal.name ∨
      f = Animal.color1 ∨ f = Animal.color2 ∨ f = Animal.breed1 ∨ f = Animal.breed2 := by
    simpa [descriptiveAttrs] using hf
  rw [Animal.UpdateIfNewer]
  split
  next h => exact Or.inl rfl
  next h =>
    rcases hcases with rfl | rfl | rfl | rfl | rfl | rfl | rfl
    · exact Or.inl rfl
    all_goals
      dsimp only
      split
      next h2 => exact Or.inr ⟨rfl, h2⟩
      next => exact Or.inl rfl

theorem acceptedCandidates_cons_pos (e c : Animal) (cs : List Animal)
    (hd : e.dateTime.time < c.dateTime.time) :
    e.acceptedCandidates (c :: cs) = c :: (e.UpdateIfNewer c).acceptedCandidates cs := by
  simp only [Animal.acceptedCandidates]
  rw [if_pos hd]

theorem acceptedCandidates_cons_neg (e c : Animal) (cs : List Animal)
    (hd : ¬ e.dateTime.time < c.dateTime.time) :
    e.acceptedCandidates (c :: cs) = e.acceptedCandidates cs := by
  simp only [Animal.acceptedCandidates]
  rw [if_neg hd]

theorem updateAll_dateTime_mono (e : Animal) (cs : List Animal) :
    e.dateTime.time ≤ (e.updateAll cs).dateTime.time := by
  induction cs generalizing e with
  | nil => exact le_refl _
  | cons c cs ih =>
    rw [updateAll_cons]
    exact le_trans (UpdateIfNewer_dateTime_mono e c) (ih (e.UpdateIfNewer c))

theorem updateAll_dateTime_eq_max (e : Animal) (cs : List Animal) :
    (e.updateAll cs).dateTime.time =
      (e.acceptedCandidates cs).foldl (fun t a => max t a.dateTime.time) e.dateTime.time := by
  induction cs generalizing e with
  | nil => rfl
  | cons c cs ih =>
    rw [updateAll_cons]
    by_cases hd : e.dateTime.time < c.dateTime.time
    · rw [acceptedCandidates_cons_pos e c cs hd, List.foldl_cons, ih]
      congr 1
      rw [UpdateIfNewer_dateTime_of_newer e c hd]
      exact (max_eq_right (le_of_lt hd)).symm
    · rw [acceptedCandidates_cons_neg e c cs hd,
          UpdateIfNewer_of_stale e c (by omega)]
      exact ih e

/-- C7: a candidate whose timestamp is equal to or earlier than the
existing record's is silently ignored: the canonical record — every
descriptive attribute, the reference timestamp and the event lists — is
left entirely unchanged. -/
theorem stale_candidate_leaves_record_unchanged (e c : Animal)
    (h : c.dateTime.time ≤ e.dateTime.time) : e.UpdateIfNewer c = e :=
  UpdateIfNewer_of_stale e c h

theorem stale_candidate_leaves_record_unchanged_witness :
    rex.dateTime.time ≤ rexUpdate.dateTime.time ∧
    rexUpdate.UpdateIfNewer rex = rexUpdate :=
  ⟨by decide, stale_candidate_leaves_record_unchanged rexUpdate rex (by decide)⟩

/-- C1, counterexample: on an accepted merge (candidate strictly newer)
with a known candidate kind different from the existing kind, the
canonical record keeps its old kind — `Animal::UpdateIfNewer` never
touches `mKind`, contradicting the claim that every descriptive attribute
with a known candidate value is overwritten. -/
theorem update_does_not_overwrite_kind_cex :
    rex.dateTime.time < rexUpdate.dateTime.time ∧
    rexUpdate.kind ≠ NaString ∧
    rexUpdate.kind ≠ rex.kind ∧
    (rex.UpdateIfNewer rexUpdate).kind = rex.kind := by decide

/-- C1, amended: on an accepted merge (candidate timestamp strictly
greater), each of name, sex (gender), both color fields and both breed
designations is overwritten when the candidate's value is known and left
untouched when it is the unknown sentinel, the timestamp advances to the
candidate's — but the kind attribute is always left untouched. -/
theorem update_overwrites_known_attrs_except_kind (e c : Animal)
    (h : e.dateTime.time < c.dateTime.time) :
    (e.UpdateIfNewer c).kind = e.kind ∧
    (c.name = NaString → (e.UpdateIfNewer c).name = e.name) ∧
    (c.name ≠ NaString → (e.UpdateIfNewer c).name = c.name) ∧
    (c.gender = NaString → (e.UpdateIfNewer c).gender = e.gender) ∧
    (c.gender ≠ NaString → (e.UpdateIfNewer c).gender = c.gender) ∧
    (c.color1 = NaString → (e.UpdateIfNewer c).color1 = e.color1) ∧
    (c.color1 ≠ NaString → (e.UpdateIfNewer c).color1 = c.color1) ∧
    (c.color2 = NaString → (e.UpdateIfNewer c).color2 = e.color2) ∧
    (c.color2 ≠ NaString → (e.UpdateIfNewer c).color2 = c.color2) ∧
    (c.breed1 = NaString → (e.UpdateIfNewer c).breed1 = e.breed1) ∧
    (c.breed1 ≠ NaString → (e.UpdateIfNewer c).breed1 = c.breed1) ∧
    (c.breed2 = NaString → (e.UpdateIfNewer c).breed2 = e.breed2) ∧
    (c.breed2 ≠ NaString → (e.UpdateIfNewer c).breed2 = c.breed2) ∧
    (e.UpdateIfNewer c).dateTime = c.dateTime := by
  rw [Animal.UpdateIfNewer, if_neg (show ¬ c.dateTime.time ≤ e.dateTime.time by omega)]
  refine ⟨rfl, ?_, ?_, ?_, ?_, ?_, ?_, ?_, ?_, ?_, ?_, ?_, ?_, rfl⟩ <;>
    intro h' <;> simp [h']

theorem update_overwrites_known_attrs_except_kind_witness :
    rex.dateTime.time < rexUpdate.dateTime.time ∧
    ((rex.UpdateIfNewer rexUpdate).kind = rex.kind ∧
     (rexUpdate.name = NaString → (rex.UpdateIfNewer rexUpdate).name = rex.name) ∧
     (rexUpdate.name ≠ NaString → (rex.UpdateIfNewer rexUpdate).name = rexUpdate.name) ∧
     (rexUpdate.gender = NaString → (rex.UpdateIfNewer rexUpdate).gender = rex.gender) ∧
     (rexUpdate.gender ≠ NaString → (rex.UpdateIfNewer rexUpdate).gender = rexUpdate.gender) ∧
     (rexUpdate.color1 = NaString → (rex.UpdateIfNewer rexUpdate).color1 = rex.color1) ∧
     (rexUpdate.color1 ≠ NaString → (rex.UpdateIfNewer rexUpdate).color1 = rexUpdate.color1) ∧
     (rexUpdate.color2 = NaString → (rex.UpdateIfNewer rexUpdate).color2 = rex.color2) ∧
     (rexUpdate.color2 ≠ NaString → (rex.UpdateIfNewer rexUpdate).color2 = rexUpdate.color2) ∧
     (rexUpdate.breed1 = NaString → (rex.UpdateIfNewer rexUpdate).breed1 = rex.breed1) ∧
     (rexUpdate.breed1 ≠ NaString → (rex.UpdateIfNewer rexUpdate).breed1 = rexUpdate.breed1) ∧
     (rexUpdate.breed2 = NaString → (rex.UpdateIfNewer rexUpdate).breed2 = rex.breed2) ∧
     (rexUpdate.breed2 ≠ NaString → (rex.UpdateIfNewer rexUpdate).breed2 = rexUpdate.breed2) ∧
     (rex.UpdateIfNewer rexUpdate).dateTime = rexUpdate.dateTime) :=
  ⟨by decide, update_overwrites_known_attrs_except_kind rex rexUpdate (by decide)⟩

/-- C8: after any sequence of merges the reference timestamp equals the
maximum timestamp over the initial record and the candidates accepted for
that identity; it is monotonically non-decreasing across merges; and an
accepted merge advances it to the candidate's timestamp. -/
theorem reference_timestamp_is_max_of_accepted (e c : Animal) (cs : List Animal) :
    (e.updateAll cs).dateTime.time =
      (e.acceptedCandidates cs).foldl (fun t a => max t a.dateTime.time) e.dateTime.time ∧
    e.dateTime.time ≤ (e.updateAll cs).dateTime.time ∧
    (e.dateTime.time < c.dateTime.time → (e.UpdateIfNewer c).dateTime = c.dateTime) :=
  ⟨updateAll_dateTime_eq_max e cs, updateAll_dateTime_mono e cs,
   fun h => UpdateIfNewer_dateTime_of_newer e c h⟩

theorem reference_timestamp_is_max_of_accepted_witness :
    (rex.updateAll [rexUpdate]).dateTime.time =
      (rex.acceptedCandidates [rexUpdate]).foldl
        (fun t a => max t a.dateTime.time) rex.dateTime.time ∧
    rex.dateTime.time ≤ (rex.updateAll [rexUpdate]).dateTime.time ∧
    (rex.UpdateIfNewer rexUpdate).dateTime = rexUpdate.dateTime :=
  have h := reference_timestamp_is_max_of_accepted rex rexUpdate [rexUpdate]
  ⟨h.1, h.2.1, h.2.2 (by decide)⟩

/-- C9: once a descriptive attribute holds a known (non-sentinel) value,
after any further sequence of merges it still holds a known value, namely
either the value it already had or a known value supplied by some
accepted candidate — it is never reset to the unknown sentinel. -/
theorem known_attr_never_regresses (f : Animal → String)
    (hf : f ∈ descriptiveAttrs) (e : Animal) (cs : List Animal)
    (hknown : f e ≠ NaString) :
    f (e.updateAll cs) ≠ NaString ∧
    (f (e.updateAll cs) = f e ∨
      ∃ c ∈ e.acceptedCandidates cs,
        f (e.updateAll cs) = f c ∧ f c ≠ NaString) := by
  induction cs generalizing e with
  | nil => exact ⟨hknown, Or.inl rfl⟩
  | cons c cs ih =>
    rw [updateAll_cons]
    by_cases hd : e.dateTime.time < c.dateTime.time
    · rw [acceptedCandidates_cons_pos e c cs hd]
      rcases UpdateIfNewer_attr_step f hf e c with heq | ⟨heq, hna⟩
      · have h' := ih (e.UpdateIfNewer c) (by rw [heq]; exact hknown)
        refine ⟨h'.1, ?_⟩
        rcases h'.2 with h2 | ⟨c', hm, hc'⟩
        · exact Or.inl (by rw [h2, heq])
        · exact Or.inr ⟨c', List.mem_cons_of_mem _ hm, hc'⟩
      · have h' := ih (e.UpdateIfNewer c) (by rw [heq]; exact hna)
        refine ⟨h'.1, ?_⟩
        rcases h'.2 with h2 | ⟨c', hm, hc'⟩
        · exact Or.inr ⟨c, List.mem_cons_self _ _, by rw [h2, heq], hna⟩
        · exact Or.inr ⟨c', List.mem_cons_of_mem _ hm, hc'⟩
    · rw [acceptedCandidates_cons_neg e c cs hd,
          UpdateIfNewer_of_stale e c (by omega)]
      exact ih e hknown

theorem MergeAnimalLoop_zero_intakes (I : List Intake) (O : List Outcome)
    (nOR ni no : Nat) : MergeAnimalLoop I O 0 nOR ni no = ([], [], nOR, no) := by
  rw [MergeAnimalLoop]
  simp

/-- Every paired record emitted by the pairing loop passed the
day-granularity comparison: the outcome is not on an earlier day than the
intake it is paired with. -/
theorem paired_mem_loop_not_earlier_aux (I : List Intake) (O : List Outcome)
    (k : Nat) :
    ∀ nIR nOR ni no, nIR + nOR ≤ k →
      ∀ i o, ImpoundRecord.paired i o ∈ (MergeAnimalLoop I O nIR nOR ni no).1 →
        CompareByDay o.outcomeDate i.intakeDate ≠ DayRelation.EarlierDay := by
  induction k with
  | zero =>
    intro nIR nOR ni no hk i o hmem
    obtain rfl : nIR = 0 := by omega
    rw [MergeAnimalLoop_zero_intakes] at hmem
    exact absurd hmem (by simp)
  | succ k ih =>
    intro nIR nOR ni no hk i o hmem
    by_cases h : 0 < nIR
    · by_cases hor : nOR = 0
      · subst hor
        by_cases h1 : 1 < nIR
        · rw [MergeAnimalLoop] at hmem
          simp only [h, h1, dif_pos, if_pos, if_true, eq_self_iff_true] at hmem
          rcases List.mem_cons.mp hmem with heq | hmem'
          · exact absurd heq (by simp)
          · exact ih 0 0 I.length no (by omega) i o hmem'
        · rw [MergeAnimalLoop] at hmem
          simp only [h, h1, dif_pos, if_true, eq_self_iff_true, if_false] at hmem
          rcases List.mem_cons.mp hmem with heq | hmem'
          · exact absurd heq (by simp)
          · exact ih (nIR - 1) 0 (ni + 1) no (by omega) i o hmem'
      · by_cases hcmp : CompareByDay (getOutcomeAt O no).outcomeDate
            (getIntakeAt I ni).intakeDate = DayRelation.EarlierDay
        · by_cases hne : nIR = I.length
          · rw [MergeAnimalLoop] at hmem
            have hlen : 0 < I.length := hne ▸ h
            simp only [h, hlen, hor, hcmp, hne, dif_pos, if_true, if_false,
              eq_self_iff_true] at hmem
            rcases List.mem_cons.mp hmem with heq | hmem'
            · exact absurd heq (by simp)
            · exact ih I.length (nOR - 1) ni (no + 1) (by omega) i o hmem'
          · rw [MergeAnimalLoop] at hmem
            simp only [h, hor, hcmp, hne, dif_pos, if_true, if_false,
              eq_self_iff_true] at hmem
            exact ih nIR (nOR - 1) ni (no + 1) (by omega) i o hmem
        · rw [MergeAnimalLoop] at hmem
          simp only [h, hor, hcmp, dif_pos, if_true, if_false,
            eq_self_iff_true] at hmem
          rcases List.mem_cons.mp hmem with heq | hmem'
          · obtain ⟨rfl, rfl⟩ : i = getIntakeAt I ni ∧ o = getOutcomeAt O no := by
              cases heq
              exact ⟨rfl, rfl⟩
            exact hcmp
          · exact ih (nIR - 1) (nOR - 1) (ni + 1) (no + 1) (by omega) i o hmem'
    · rw [MergeAnimalLoop] at hmem
      simp [h] at hmem

/-- Every paired record emitted by the pairing loop passed the
day-granularity comparison: the outcome is not on an earlier day than the
intake it is paired with. -/
theorem paired_mem_loop_not_earlier (I : List Intake) (O : List Outcome)
    (nIR nOR ni no : Nat) (i : Intake) (o : Outcome)
    (hmem : ImpoundRecord.paired i o ∈ (MergeAnimalLoop I O nIR nOR ni no).1) :
    CompareByDay o.outcomeDate i.intakeDate ≠ DayRelation.EarlierDay :=
  paired_mem_loop_not_earlier_aux I O (nIR + nOR) nIR nOR ni no (le_refl _) i o hmem

/-- A paired record in the full `MergeAnimal` output already occurs in the
loop output: the post-loop leftover handling only ever appends a solitary
outcome-only record. -/
theorem paired_mem_MergeAnimal (I : List Intake) (O : List Outcome)
    (i : Intake) (o : Outcome)
    (hmem : ImpoundRecord.paired i o ∈ (MergeAnimal I O).1) :
    ImpoundRecord.paired i o ∈ (MergeAnimalLoop I O I.length O.length 0 0).1 := by
  simp only [MergeAnimal] at hmem
  split at hmem
  · split at hmem
    · rcases List.mem_append.mp hmem with hmem' | hmem'
      · exact hmem'
      · exact absurd (List.mem_singleton.mp hmem') (by simp)
    · exact hmem
  · exact hmem

theorem known_attr_never_regresses_witness :
    Animal.name ∈ descriptiveAttrs ∧ Animal.name rex ≠ NaString ∧
    (Animal.name (rex.updateAll [rexUpdate]) ≠ NaString ∧
      (Animal.name (rex.updateAll [rexUpdate]) = Animal.name rex ∨
        ∃ c ∈ rex.acceptedCandidates [rexUpdate],
          Animal.name (rex.updateAll [rexUpdate]) = Animal.name c ∧
          Animal.name c ≠ NaString)) :=
  ⟨by simp [descriptiveAttrs], by decide,
   known_attr_never_regresses Animal.name (by simp [descriptiveAttrs]) rex
     [rexUpdate] (by decide)⟩

/-- C4: every ImpoundRecord emitted with both a real intake and a real
outcome (a paired record) has `CompareByDay outcome intake` equal to
`SameDay` or `LaterDay`, never `EarlierDay`: paired records are only
emitted in the branch that has just checked the comparison. -/
theorem paired_record_outcome_same_or_later (I : List Intake)
    (O : List Outcome) (i : Intake) (o : Outcome)
    (hmem : ImpoundRecord.paired i o ∈ (MergeAnimal I O).1) :
    CompareByDay o.outcomeDate i.intakeDate = DayRelation.SameDay ∨
    CompareByDay o.outcomeDate i.intakeDate = DayRelation.LaterDay := by
  have h := paired_mem_loop_not_earlier I O I.length O.length 0 0 i o
    (paired_mem_MergeAnimal I O i o hmem)
  cases hc : CompareByDay o.outcomeDate i.intakeDate
  · exact absurd hc h
  · exact Or.inl rfl
  · exact Or.inr rfl

theorem paired_record_outcome_same_or_later_witness :
    CompareByDay (mkOutcome 2 2024 1 5).outcomeDate
      (mkIntake 1 2024 1 1).intakeDate = DayRelation.SameDay ∨
    CompareByDay (mkOutcome 2 2024 1 5).outcomeDate
      (mkIntake 1 2024 1 1).intakeDate = DayRelation.LaterDay :=
  paired_record_outcome_same_or_later [mkIntake 1 2024 1 1]
    [mkOutcome 2 2024 1 5] _ _
    (by simp [MergeAnimal, MergeAnimalLoop, getIntakeAt, getOutcomeAt,
          CompareByDay, mkIntake, mkOutcome, Intake.null, Outcome.null])

/-- C5: whenever the pairing loop reaches a state with no outcomes
remaining and more than one intake remaining, the rest of the run emits
exactly one warning (`Intake not matched with outcome.`) and exactly one
solitary intake-only record built from `I[I.length - 1]` — which, by the
cursor invariant `ni + nIR = I.length`, is the last (most recent)
remaining intake — consumes all remaining intakes, and emits nothing
else, so no earlier remaining intake reaches the output. -/
theorem unmatched_intakes_emit_only_last (I : List Intake)
    (O : List Outcome) (nIR ni no : Nat) (h2 : 2 ≤ nIR)
    (hinv : ni + nIR = I.length) :
    MergeAnimalLoop I O nIR 0 ni no =
      ([ImpoundRecord.intakeOnly (getIntakeAt I (I.length - 1))],
       ["Intake not matched with outcome."], 0, no) := by
  have h : 0 < nIR := by omega
  have h1 : 1 < nIR := by omega
  rw [MergeAnimalLoop]
  simp only [h, h1, dif_pos, if_true, if_pos, eq_self_iff_true]
  rw [MergeAnimalLoop_zero_intakes]

theorem unmatched_intakes_emit_only_last_witness :
    2 ≤ 2 ∧
    0 + 2 = [mkIntake 1 2024 1 1, mkIntake 10 2024 1 10].length ∧
    MergeAnimalLoop [mkIntake 1 2024 1 1, mkIntake 10 2024 1 10] [] 2 0 0 0 =
      ([ImpoundRecord.intakeOnly
          (getIntakeAt [mkIntake 1 2024 1 1, mkIntake 10 2024 1 10]
            ([mkIntake 1 2024 1 1, mkIntake 10 2024 1 10].length - 1))],
       ["Intake not matched with outcome."], 0, 0) :=
  ⟨by decide, by decide,
   unmatched_intakes_emit_only_last
     [mkIntake 1 2024 1 1, mkIntake 10 2024 1 10] [] 2 0 0
     (by decide) (by decide)⟩

/-- C6: an outcome examined while no intake has been consumed yet
(`numIntakesRemaining == GetNumIntakes()`, intake cursor still 0) and
lying on an earlier day than the first intake is emitted as a solitary
outcome-only record without advancing the intake cursor; in particular,
for one intake and one strictly earlier-day outcome the engine emits
exactly the solitary outcome-only record followed by the solitary
intake-only record, with no warning. -/
theorem early_outcome_first_attempt_solitary :
    (∀ (i : Intake) (o : Outcome),
      CompareByDay o.outcomeDate i.intakeDate = DayRelation.EarlierDay →
      MergeAnimal [i] [o] =
        ([ImpoundRecord.outcomeOnly o, ImpoundRecord.intakeOnly i], [])) ∧
    (∀ (I : List Intake) (O : List Outcome) (nOR no : Nat),
      0 < I.length → ¬ nOR = 0 →
      CompareByDay (getOutcomeAt O no).outcomeDate
        (getIntakeAt I 0).intakeDate = DayRelation.EarlierDay →
      MergeAnimalLoop I O I.length nOR 0 no =
        (ImpoundRecord.outcomeOnly (getOutcomeAt O no) ::
           (MergeAnimalLoop I O I.length (nOR - 1) 0 (no + 1)).1,
         (MergeAnimalLoop I O I.length (nOR - 1) 0 (no + 1)).2)) := by
  constructor
  · intro i o hcmp
    simp [MergeAnimal, MergeAnimalLoop, getIntakeAt, getOutcomeAt, hcmp]
  · intro I O nOR no hlen hor hcmp
    rw [MergeAnimalLoop]
    simp only [hlen, hor, hcmp, dif_pos, if_true, if_false, eq_self_iff_true]

theorem early_outcome_first_attempt_solitary_witness :
    MergeAnimal [mkIntake 5 2024 3 5] [mkOutcome 1 2024 3 1] =
      ([ImpoundRecord.outcomeOnly (mkOutcome 1 2024 3 1),
        ImpoundRecord.intakeOnly (mkIntake 5 2024 3 5)], []) ∧
    MergeAnimalLoop [mkIntake 5 2024 3 5] [mkOutcome 1 2024 3 1]
        [mkIntake 5 2024 3 5].length 1 0 0 =
      (ImpoundRecord.outcomeOnly (getOutcomeAt [mkOutcome 1 2024 3 1] 0) ::
         (MergeAnimalLoop [mkIntake 5 2024 3 5] [mkOutcome 1 2024 3 1]
           [mkIntake 5 2024 3 5].length 0 0 1).1,
       (MergeAnimalLoop [mkIntake 5 2024 3 5] [mkOutcome 1 2024 3 1]
         [mkIntake 5 2024 3 5].length 0 0 1).2) :=
  ⟨early_outcome_first_attempt_solitary.1 (mkIntake 5 2024 3 5)
     (mkOutcome 1 2024 3 1) (by decide),
   early_outcome_first_attempt_solitary.2 [mkIntake 5 2024 3 5]
     [mkOutcome 1 2024 3 1] 1 0 (by decide) (by decide) (by decide)⟩

/-- C2, counterexample: an individual with zero intakes and two remaining
outcomes gets a single solitary outcome-only record (for the first
remaining outcome), not one record per outcome: the leftover-outcome
branch has no loop, contradicting the claim that all m outcomes are
emitted. -/
theorem zero_intakes_two_outcomes_single_record_cex :
    (MergeAnimal [] [mkOutcome 1 2024 2 1, mkOutcome 2 2024 2 2]).1.length = 1 ∧
    ¬ (MergeAnimal [] [mkOutcome 1 2024 2 1, mkOutcome 2 2024 2 2]).1.length = 2 ∧
    (MergeAnimal [] [mkOutcome 1 2024 2 1, mkOutcome 2 2024 2 2]).2 = [] := by
  have h : MergeAnimal [] [mkOutcome 1 2024 2 1, mkOutcome 2 2024 2 2] =
      ([ImpoundRecord.outcomeOnly (mkOutcome 1 2024 2 1)], []) := by
    simp [MergeAnimal, MergeAnimalLoop_zero_intakes, getOutcomeAt]
  rw [h]
  exact ⟨rfl, by decide, rfl⟩

/-- C2, amended: for an individual with zero intakes and a non-empty list
of remaining outcomes, the engine emits exactly one solitary outcome-only
record, built from the first remaining outcome (later outcomes produce no
record), and signals no anomaly.  For m = 1 this coincides with the
original claim. -/
theorem zero_intakes_emits_first_outcome_only (O : List Outcome)
    (h : O ≠ []) :
    MergeAnimal [] O = ([ImpoundRecord.outcomeOnly (getOutcomeAt O 0)], []) := by
  have hlen : 0 < O.length := List.length_pos.mpr h
  simp [MergeAnimal, MergeAnimalLoop_zero_intakes, hlen]

theorem zero_intakes_emits_first_outcome_only_witness :
    [mkOutcome 1 2024 2 1] ≠ [] ∧
    MergeAnimal [] [mkOutcome 1 2024 2 1] =
      ([ImpoundRecord.outcomeOnly (getOutcomeAt [mkOutcome 1 2024 2 1] 0)], []) :=
  ⟨by decide, zero_intakes_emits_first_outcome_only [mkOutcome 1 2024 2 1]
     (by decide)⟩

theorem MergeAnimalSteps_le_aux (I : List Intake) (O : List Outcome)
    (k : Nat) :
    ∀ nIR nOR ni no, nIR + nOR ≤ k →
      MergeAnimalSteps I O nIR nOR ni no ≤ nIR + nOR := by
  induction k with
  | zero =>
    intro nIR nOR ni no hk
    obtain rfl : nIR = 0 := by omega
    rw [MergeAnimalSteps]
    simp
  | succ k ih =>
    intro nIR nOR ni no hk
    by_cases h : 0 < nIR
    · by_cases hor : nOR = 0
      · subst hor
        by_cases h1 : 1 < nIR
        · rw [MergeAnimalSteps]
          simp only [h, h1, dif_pos, if_true, if_pos, eq_self_iff_true]
          have := ih 0 0 I.length no (by omega)
          omega
        · rw [MergeAnimalSteps]
          simp only [h, h1, dif_pos, if_true, if_false, eq_self_iff_true]
          have := ih (nIR - 1) 0 (ni + 1) no (by omega)
          omega
      · by_cases hcmp : CompareByDay (getOutcomeAt O no).outcomeDate
            (getIntakeAt I ni).intakeDate = DayRelation.EarlierDay
        · rw [MergeAnimalSteps]
          simp only [h, hor, hcmp, dif_pos, if_true, if_false,
            eq_self_iff_true]
          have := ih nIR (nOR - 1) ni (no + 1) (by omega)
          omega
        · rw [MergeAnimalSteps]
          simp only [h, hor, hcmp, dif_pos, if_true, if_false,
            eq_self_iff_true]
          have := ih (nIR - 1) (nOR - 1) (ni + 1) (no + 1) (by omega)
          omega
    · rw [MergeAnimalSteps]
      simp [h]

/-- C10: the pairing loop terminates; each iteration consumes an outcome
or at least one intake, so from any state the number of iterations is at
most `numIntakesRemaining + numOutcomesRemaining`, and from the initial
state at most n + m.  (`MergeAnimalSteps` counts the iterations of
`MergeAnimalLoop`, which Lean already accepts as total with the same
measure.) -/
theorem pairing_terminates_in_linear_steps (I : List Intake)
    (O : List Outcome) (nIR nOR ni no : Nat) :
    MergeAnimalSteps I O nIR nOR ni no ≤ nIR + nOR ∧
    MergeAnimalSteps I O I.length O.length 0 0 ≤ I.length + O.length :=
  ⟨MergeAnimalSteps_le_aux I O (nIR + nOR) nIR nOR ni no (le_refl _),
   MergeAnimalSteps_le_aux I O (I.length + O.length) I.length O.length 0 0
     (le_refl _)⟩

end AtxSac
